import Mathlib

/-!
Verification of the RagBackend collection/file lifecycle layer.

The repository contains two parallel implementations of the registry and
lifecycle logic:

* `src/langconnect/database/collections.py` — the owner-scoped
  `CollectionsManager` / `Collection` classes backed by the
  `langchain_pg_collection` / `langchain_pg_embedding` tables; and
* `src/ragbackend/database/collections.py` plus
  `src/ragbackend/database/files.py` and `src/ragbackend/api/files.py` —
  the `CollectionManager` / `Collection` rewrite with a `collections`
  registry table, a `file_storage` catalog and a MinIO blob store.

Both are embedded below.  JSONB metadata maps are modelled as association
lists of `String × JValue`; SQL statements are translated into the
corresponding list operations (filters for `WHERE`, sorts for `ORDER BY`,
`drop/take` for `OFFSET/LIMIT`).
-/

/-- JSON scalar values stored in a JSONB metadata map. -/
inductive JValue
  | str (s : String)
  | num (n : Int)
  | bool (b : Bool)
  | null
deriving DecidableEq, Repr

/-- A JSON object, as an insertion-ordered association list (Python dict
semantics: keys unique, insertion order preserved). -/
abbrev JObj := List (String × JValue)

/-- Key lookup in a JSON object (first binding wins). -/
def jGet : JObj → String → Option JValue
  | [], _ => none
  | p :: ps, k => if p.1 = k then some p.2 else jGet ps k

/-- Python `d[k] = v`: replace the binding in place, else append. -/
def jSet : JObj → String → JValue → JObj
  | [], k, v => [(k, v)]
  | p :: ps, k, v => if p.1 = k then (k, v) :: ps else p :: jSet ps k v

/-- Python `d.pop(k, ...)`: remove the binding for `k`. -/
def jErase : JObj → String → JObj
  | [], _ => []
  | p :: ps, k => if p.1 = k then jErase ps k else p :: jErase ps k

/-- Postgres `->>` extraction: text form of a field, SQL NULL for JSON
null or a missing key. -/
def jText : JValue → Option String
  | .null => none
  | .str s => some s
  | .num n => some (toString n)
  | .bool b => some (if b then "true" else "false")

/-- Text extraction of one key, as `cmetadata->>'k'` produces it. -/
def jFieldText (m : JObj) (k : String) : Option String :=
  (jGet m k).bind jText

/-- Lexicographic strict order on code-point sequences, the order
Postgres uses for `ORDER BY` over the text extractions in this model. -/
def lexLt : List Nat → List Nat → Bool
  | [], [] => false
  | [], _ :: _ => true
  | _ :: _, [] => false
  | a :: as, b :: bs =>
    if a < b then true else if b < a then false else lexLt as bs

/-- Code points of a string. -/
def strCodes (s : String) : List Nat := s.data.map Char.toNat

/-- Boolean `≤` on strings via the lexicographic code-point order. -/
def strLe (a b : String) : Bool := !(lexLt (strCodes b) (strCodes a))

/-- The order relation used for `ORDER BY` over strings. -/
def StrLeRel (a b : String) : Prop := strLe a b = true

instance : DecidableRel StrLeRel := fun a b => by
  unfold StrLeRel; infer_instance

/-! ## langconnect: `CollectionsManager` over `langchain_pg_collection`

One row of `langchain_pg_collection`.  PGVector quirk preserved: the SQL
`name` column stores the physical table id, while the logical display
name lives under the `"name"` key of `cmetadata`. -/

structure PgRow where
  uuid : String
  name : String
  cmetadata : JObj
deriving DecidableEq, Repr

/-- The `langchain_pg_collection` table. -/
abbrev Registry := List PgRow

/-- The ownership predicate `cmetadata->>'owner_id' = $user` used in every
scoped query. -/
def ownedBy (r : PgRow) (uid : String) : Bool :=
  jFieldText r.cmetadata "owner_id" == some uid

/-- Result shape of `CollectionDetails` (langconnect).  `tableId` is the
internal `table_id` field, present only on the `get` path. -/
structure CollectionDetails where
  uuid : String
  name : JValue
  metadata : JObj
  tableId : Option String
deriving DecidableEq, Repr

/-- Shared `WHERE uuid = $id AND cmetadata->>'owner_id' = $user` row
lookup (first match, as `fetchrow` returns). -/
def findOwned (uid : String) (reg : Registry) (cid : String) : Option PgRow :=
  reg.find? (fun r => r.uuid == cid && ownedBy r uid)

/-- Details built from a metadata blob: pop the `"name"` key (defaulting
the display name to `"Unnamed"`), keep the rest. -/
def detailsOfMeta (cid : String) (m : JObj) : CollectionDetails :=
  { uuid := cid
    name := (jGet m "name").getD (JValue.str "Unnamed")
    metadata := jErase m "name"
    tableId := none }

/-- Key for `ORDER BY cmetadata->>'name'` (ascending, SQL NULLS LAST). -/
def nameKeyLe (a b : Option String) : Bool :=
  match a, b with
  | some x, some y => strLe x y
  | some _, none => true
  | none, some _ => false
  | none, none => true

/-- `CollectionsManager.list`: rows owned by the user, ordered by the
logical name, each with `"name"` popped out of the returned metadata. -/
def cmList (uid : String) (reg : Registry) : List CollectionDetails :=
  let rows := reg.filter (fun r => ownedBy r uid)
  let sorted := List.insertionSort
    (fun a b => nameKeyLe (jFieldText a.cmetadata "name") (jFieldText b.cmetadata "name") = true) rows
  sorted.map (fun r => detailsOfMeta r.uuid r.cmetadata)

/-- `CollectionsManager.get`: single-row lookup scoped by id AND
ownership in the same query; `table_id` comes from the SQL `name`
column. -/
def cmGet (uid : String) (reg : Registry) (cid : String) : Option CollectionDetails :=
  match findOwned uid reg cid with
  | none => none
  | some r => some { detailsOfMeta r.uuid r.cmetadata with tableId := some r.name }

/-- `CollectionsManager.create`: merge `owner_id` and the display name
into the metadata (system keys overwrite tenant-supplied values), append
the registry row that PGVector provisioning writes, then fetch it back by
`name = table_id AND owner`.  `newUuid` and `tableId` stand for the two
freshly generated UUIDs. -/
def cmCreate (uid : String) (reg : Registry) (newUuid tableId cname : String)
    (m : JObj) : Option CollectionDetails × Registry :=
  let merged := jSet (jSet m "owner_id" (JValue.str uid)) "name" (JValue.str cname)
  let reg2 := reg ++ [{ uuid := newUuid, name := tableId, cmetadata := merged }]
  match reg2.find? (fun r => r.name == tableId && ownedBy r uid) with
  | none => (none, reg2)
  | some r => (some (detailsOfMeta r.uuid r.cmetadata), reg2)

/-- Error taxonomy surfaced by the managers (HTTP 400 / 404). -/
inductive ApiError
  | validation
  | notFound
deriving DecidableEq, Repr

deriving instance DecidableEq for Except

/-- `UPDATE ... SET cmetadata = $merged WHERE uuid AND owner` applied to
the registry. -/
def applyMeta (uid cid : String) (reg : Registry) (merged : JObj) : Registry :=
  reg.map (fun r => if r.uuid == cid && ownedBy r uid then { r with cmetadata := merged } else r)

/-- `UPDATE ... SET cmetadata = jsonb_set(cmetadata, '\x7bname\x7d', $n, true)`
scoped by uuid AND owner. -/
def applyNameSet (uid cid n : String) (reg : Registry) : Registry :=
  reg.map (fun r =>
    if r.uuid == cid && ownedBy r uid
    then { r with cmetadata := jSet r.cmetadata "name" (JValue.str n) } else r)

/-- `CollectionsManager.update`: the four-case matrix.  Neither argument
is a 400; a metadata argument is merged with the forced `owner_id` and
either the new or the preserved display name, then stored wholesale; a
lone name argument only rewrites the `"name"` key; zero rows matched by
the ownership-scoped statement is a 404. -/
def cmUpdate (uid : String) (reg : Registry) (cid : String) :
    Option String → Option JObj → Except ApiError (CollectionDetails × Registry)
  | none, none => .error .validation
  | nameArg, some m =>
    let base := jSet m "owner_id" (JValue.str uid)
    match nameArg, findOwned uid reg cid with
    | some n, some _ =>
      let merged := jSet base "name" (JValue.str n)
      .ok (detailsOfMeta cid merged, applyMeta uid cid reg merged)
    | none, some r =>
      let merged := jSet base "name" ((jGet r.cmetadata "name").getD (JValue.str "Unnamed"))
      .ok (detailsOfMeta cid merged, applyMeta uid cid reg merged)
    | _, none => .error .notFound
  | some n, none =>
    match findOwned uid reg cid with
    | none => .error .notFound
    | some r =>
      .ok (detailsOfMeta cid (jSet r.cmetadata "name" (JValue.str n)),
           applyNameSet uid cid n reg)

/-- `CollectionsManager.delete`: `DELETE ... WHERE uuid AND owner`,
returning rows-affected (0 is returned, not raised). -/
def cmDelete (uid : String) (reg : Registry) (cid : String) : Nat × Registry :=
  let keep := reg.filter (fun r => !(r.uuid == cid && ownedBy r uid))
  (reg.length - keep.length, keep)

/-! ## langconnect: `Collection` over `langchain_pg_embedding` -/

/-- One row of `langchain_pg_embedding`; `id` is the serial key the
listing query orders on, `uuid` the chunk UUID. -/
structure EmbRow where
  id : Nat
  uuid : String
  collectionId : String
  document : String
  cmetadata : JObj
deriving DecidableEq, Repr

/-- The `cmetadata->>'file_id'` grouping key of a chunk. -/
def fileIdOf (r : EmbRow) : Option String := jFieldText r.cmetadata "file_id"

/-- `Collection.delete(file_id=...)`: the DELETE joined against the
ownership-scoped collection row; on a zero count the collection's
existence is verified (404 if absent), otherwise `True` is returned (the
count is only logged). -/
def collDeleteByFileId (uid cid fid : String) (reg : Registry)
    (emb : List EmbRow) : Except ApiError (Bool × List EmbRow) :=
  let collOwned := (findOwned uid reg cid).isSome
  let hits := fun e => e.collectionId == cid && collOwned && (fileIdOf e == some fid)
  let emb2 := emb.filter (fun e => !(hits e))
  let deletedCount := emb.length - emb2.length
  if deletedCount == 0 then
    match cmGet uid reg cid with
    | none => .error .notFound
    | some _ => .ok (true, emb2)
  else .ok (true, emb2)

/-- Rows the `UniqueFileChunks` CTE ranges over: chunks of this
collection, joined against the ownership-scoped registry row, with a
non-NULL `file_id`. -/
def relevantRows (uid cid : String) (reg : Registry) (emb : List EmbRow) : List EmbRow :=
  let collOwned := (findOwned uid reg cid).isSome
  emb.filter (fun e => e.collectionId == cid && collOwned && (fileIdOf e).isSome)

/-- Fold picking the row with the smallest `id` (the row `DISTINCT ON
(file_id) ... ORDER BY file_id, id` retains). -/
def bestById : Option EmbRow → List EmbRow → Option EmbRow
  | acc, [] => acc
  | none, e :: es => bestById (some e) es
  | some e0, e :: es => bestById (some (if e.id < e0.id then e else e0)) es

/-- The representative chunk of one `file_id` partition. -/
def minIdRow (rows : List EmbRow) (f : String) : Option EmbRow :=
  bestById none (rows.filter (fun e => fileIdOf e == some f))

/-- The distinct `file_id` values present, in `ORDER BY file_id` order. -/
def sortedFids (rows : List EmbRow) : List String :=
  List.insertionSort StrLeRel (rows.filterMap fileIdOf).dedup

/-- Deduplicated per-file representatives, ordered by `file_id` — the
result set of the listing query before `LIMIT`/`OFFSET`. -/
def uniqueFileReps (rows : List EmbRow) : List EmbRow :=
  (sortedFids rows).filterMap (minIdRow rows)

/-- Response item shape of `Collection.list` (full chunk metadata is
returned untouched). -/
structure DocOut where
  id : Nat
  content : String
  metadata : JObj
  collectionId : String
deriving DecidableEq, Repr

/-- Projection of a representative chunk into the response shape. -/
def docOutOf (cid : String) (e : EmbRow) : DocOut :=
  { id := e.id, content := e.document, metadata := e.cmetadata, collectionId := cid }

/-- `Collection.list`: one representative chunk per distinct `file_id`,
ordered by `file_id`, `OFFSET` then `LIMIT` applied to the deduplicated
result; an empty page triggers the collection-existence check (404 when
the collection is missing or unowned). -/
def collList (uid cid : String) (reg : Registry) (emb : List EmbRow)
    (limit offset : Nat) : Except ApiError (List DocOut) :=
  let docs := (((uniqueFileReps (relevantRows uid cid reg emb)).drop offset).take limit).map
    (docOutOf cid)
  if docs.isEmpty then
    match cmGet uid reg cid with
    | none => .error .notFound
    | some _ => .ok docs
  else .ok docs

/-! ## ragbackend: `CollectionManager`, `file_storage`, MinIO, endpoints -/

/-- One row of the ragbackend `collections` registry table (also the
shape of the details dict its manager returns).  `embedding_dimensions`
is dropped: no claim touches it. -/
structure RbCollRow where
  uuid : String
  name : String
  tableId : String
  metadata : JObj
  embeddingModel : String
deriving DecidableEq, Repr

/-- One row of the `file_storage` catalog (fields the claims touch). -/
structure RbFileRow where
  fileId : String
  userId : String
  collectionId : String
  filename : String
  objectPath : String
  fileSize : Nat
deriving DecidableEq, Repr

/-- One row of a `vectorstore_%s` chunk table. -/
structure RbDocRow where
  customId : String
  cmetadata : JObj
deriving DecidableEq, Repr

/-- The stores the ragbackend lifecycle coordinator spans: the registry,
the file catalog, the MinIO blob paths, and the per-collection chunk
tables keyed by `table_id`. -/
structure RbState where
  collections : List RbCollRow
  fileRows : List RbFileRow
  blobs : List String
  tables : List (String × List RbDocRow)
deriving DecidableEq, Repr

/-- The `collection_{uuid}` table-id scheme (hyphens to underscores). -/
def rbTableIdOf (u : String) : String :=
  "collection_" ++ String.mk (u.data.map (fun c => if c = '-' then '_' else c))

/-- `CollectionManager.create_collection`: stores the supplied metadata
verbatim (`json.dumps(metadata or {})` — no `owner_id` is merged in),
provisions an empty chunk table, inserts the registry row and returns the
details. -/
def rbCreateCollection (st : RbState) (newUuid name : String) (m : Option JObj)
    (model : String) : RbCollRow × RbState :=
  let tid := rbTableIdOf newUuid
  let row : RbCollRow :=
    { uuid := newUuid, name := name, tableId := tid
      metadata := m.getD [], embeddingModel := model }
  (row, { st with
            collections := st.collections ++ [row]
            tables := st.tables ++ [(tid, [])] })

/-- `CollectionManager.get_collection`: lookup by uuid alone — the query
carries no ownership predicate. -/
def rbGetCollection (st : RbState) (cid : String) : Except ApiError RbCollRow :=
  match st.collections.find? (fun r => r.uuid == cid) with
  | none => .error .notFound
  | some r => .ok r

/-- `CollectionManager.list_collections`: every registry row, ordered by
name — again with no ownership predicate. -/
def rbListCollections (st : RbState) : List RbCollRow :=
  List.insertionSort (fun a b => StrLeRel a.name b.name) st.collections

/-- `CollectionManager.update_collection`: 404 only when the uuid is
absent; with neither argument the row is returned unchanged (no
validation error); a metadata argument replaces the column verbatim. -/
def rbUpdateCollection (st : RbState) (cid : String) (nameArg : Option String)
    (mArg : Option JObj) : Except ApiError (RbCollRow × RbState) :=
  match st.collections.find? (fun r => r.uuid == cid) with
  | none => .error .notFound
  | some r =>
    let r2 := { r with name := nameArg.getD r.name, metadata := mArg.getD r.metadata }
    .ok (r2, { st with collections := st.collections.map (fun x => if x.uuid == cid then r2 else x) })

/-- Steps of the delete-collection saga, in execution order. -/
inductive SagaStep
  | resolve
  | blobWipe
  | catalogWipe
  | dropTbl
  | registryDelete
deriving DecidableEq, Repr

/-- Fault injection for the saga's best-effort sub-steps: `blobFail`
models `minio_service.delete_files_by_prefix` raising, `catalogFail` the
internally-caught failure of `delete_files_by_collection` (which then
returns 0), `dropFail` a failing `DROP TABLE`. -/
structure SagaFlags where
  blobFail : Bool
  catalogFail : Bool
  dropFail : Bool
deriving DecidableEq, Repr

/-- Flag vector for a fault-free run. -/
def noFail : SagaFlags := ⟨false, false, false⟩

/-- Initial-segment test on character lists. -/
def listPre : List Char → List Char → Bool
  | [], _ => true
  | _ :: _, [] => false
  | a :: as, b :: bs => a == b && listPre as bs

/-- Whether `pre` is an initial segment of `s`. -/
def strStarts (s pre : String) : Bool := listPre pre.data s.data

/-- Modelled from the spec: the opaque blob store's delete-by-prefix
operation (`minio_service.delete_files_by_prefix`, whose implementation
is not part of the embedded sources) removes every blob stored under the
given path prefix. -/
def blobsWipedUnder (blobs : List String) (pre : String) : List String :=
  blobs.filter (fun p => !(strStarts p pre))

/-- `delete_files_by_collection`: removes the catalog rows scoped by
collection AND user; its own exceptions are caught internally and turn
into a 0 count. -/
def rbDeleteFilesByCollection (rows : List RbFileRow) (cid uid : String)
    (fail : Bool) : Nat × List RbFileRow :=
  if fail then (0, rows)
  else
    let keep := rows.filter (fun r => !(r.collectionId == cid && r.userId == uid))
    (rows.length - keep.length, keep)

/-- `CollectionManager.delete_collection`: resolve `table_id` by uuid
(returning `False` when absent), then one best-effort try block wiping
blobs under `"{user}/{collection}/"` followed by the catalog rows (an
exception from the blob wipe skips the catalog wipe), then `DROP TABLE IF
EXISTS` (failure logged), and the registry row is deleted last.  The
returned Bool is `result != "DELETE 0"`; the trace records the steps that
ran. -/
def rbDeleteCollection (st : RbState) (uid cid : String) (f : SagaFlags) :
    Bool × RbState × List SagaStep :=
  match st.collections.find? (fun r => r.uuid == cid) with
  | none => (false, st, [SagaStep.resolve])
  | some row =>
    let tid := row.tableId
    let pre := uid ++ "/" ++ cid ++ "/"
    let (st1, steps1) :=
      if f.blobFail then (st, [SagaStep.blobWipe])
      else
        let stB := { st with blobs := blobsWipedUnder st.blobs pre }
        let stC := { stB with
          fileRows := (rbDeleteFilesByCollection stB.fileRows cid uid f.catalogFail).2 }
        (stC, [SagaStep.blobWipe, SagaStep.catalogWipe])
    let st2 :=
      if f.dropFail then st1
      else { st1 with tables := st1.tables.filter (fun t => !(t.1 == tid)) }
    let keep := st2.collections.filter (fun r => !(r.uuid == cid))
    let affected := st2.collections.length - keep.length
    (decide (affected ≠ 0), { st2 with collections := keep },
     SagaStep.resolve :: steps1 ++ [SagaStep.dropTbl, SagaStep.registryDelete])

/-- The HTTP DELETE `/collections/{id}` route: the saga's Bool result is
discarded and 204 is acknowledged unconditionally. -/
def rbCollectionsDeleteStatus (st : RbState) (uid cid : String) (f : SagaFlags) :
    Nat × RbState :=
  (204, (rbDeleteCollection st uid cid f).2.1)

/-- Fault injection for `Collection.delete` (file deletion). -/
structure FileDelFlags where
  vectorFail : Bool
  minioFail : Bool
deriving DecidableEq, Repr

/-- ragbackend `Collection.delete(file_id)`: collect the chunk ids with
this `file_id`; an empty hit set returns `False`; otherwise the chunks
are deleted, then (best-effort) the blob and the catalog row, and `True`
is returned even if that cleanup failed. -/
def rbCollFileDelete (st : RbState) (tid fid : String) (f : FileDelFlags) :
    Bool × RbState :=
  match st.tables.find? (fun t => t.1 == tid) with
  | none => (false, st)
  | some tbl =>
    let hits := tbl.2.filter (fun d => jFieldText d.cmetadata "file_id" == some fid)
    if hits.isEmpty then (false, st)
    else if f.vectorFail then (false, st)
    else
      let remaining := tbl.2.filter (fun d => !(jFieldText d.cmetadata "file_id" == some fid))
      let st1 : RbState := { st with
        tables := st.tables.map (fun t => if t.1 == tid then (t.1, remaining) else t) }
      let st2 : RbState :=
        match st1.fileRows.find? (fun r => r.fileId == fid) with
        | none => st1
        | some fr =>
          if f.minioFail then st1
          else { st1 with
                   blobs := st1.blobs.filter (fun p => !(p == fr.objectPath))
                   fileRows := st1.fileRows.filter (fun r => !(r.fileId == fid)) }
      (true, st2)

/-- Outcome of a ragbackend file endpoint: a payload or an HTTP error
status. -/
inductive FileEpResult
  | ok (f : RbFileRow)
  | httpError (status : Nat)
deriving DecidableEq, Repr

/-- `GET /files/{file_id}/info`: fetch by `file_id` alone, 404 when
absent, then an explicit ownership check that raises 403 "Access
denied". -/
def rbGetFileInfo (uid fid : String) (st : RbState) : FileEpResult :=
  match st.fileRows.find? (fun r => r.fileId == fid) with
  | none => .httpError 404
  | some fr => if fr.userId ≠ uid then .httpError 403 else .ok fr

/-- `DELETE /files/{file_id}`: same fetch-then-check shape (404 missing,
403 unowned), then blob and catalog-row removal. -/
def rbDeleteFileEp (uid fid : String) (st : RbState) : FileEpResult × RbState :=
  match st.fileRows.find? (fun r => r.fileId == fid) with
  | none => (.httpError 404, st)
  | some fr =>
    if fr.userId ≠ uid then (.httpError 403, st)
    else
      (.ok fr,
       { st with
           blobs := st.blobs.filter (fun p => !(p == fr.objectPath))
           fileRows := st.fileRows.filter (fun r => !(r.fileId == fid)) })

/-! ## Helper lemmas -/

theorem jGet_jSet_self (m : JObj) (k : String) (v : JValue) :
    jGet (jSet m k v) k = some v := by
  induction m with
  | nil => simp [jGet, jSet]
  | cons p ps ih =>
    by_cases h : p.1 = k
    · simp [jSet, h, jGet]
    · simp [jSet, h, jGet, ih]

theorem jGet_jSet_ne (m : JObj) (k k' : String) (v : JValue) (h : k' ≠ k) :
    jGet (jSet m k v) k' = jGet m k' := by
  have hk1 : ¬k = k' := fun hk => h hk.symm
  induction m with
  | nil => simp [jGet, jSet, hk1]
  | cons p ps ih =>
    by_cases hp : p.1 = k
    · have hk2 : ¬p.1 = k' := by rw [hp]; exact hk1
      simp [jSet, hp, jGet, hk1, hk2]
    · by_cases hq : p.1 = k'
      · simp [jSet, hp, jGet, hq, h]
      · simp [jSet, hp, jGet, hq, ih]

theorem jGet_jErase_self (m : JObj) (k : String) :
    jGet (jErase m k) k = none := by
  induction m with
  | nil => simp [jGet, jErase]
  | cons p ps ih =>
    by_cases h : p.1 = k
    · simp [jErase, h, ih]
    · simp [jErase, h, jGet, ih]

theorem jGet_jErase_ne (m : JObj) (k k' : String) (h : k' ≠ k) :
    jGet (jErase m k) k' = jGet m k' := by
  have hk1 : ¬k = k' := fun hk => h hk.symm
  induction m with
  | nil => simp [jGet, jErase]
  | cons p ps ih =>
    by_cases hp : p.1 = k
    · have hq : ¬p.1 = k' := by rw [hp]; exact hk1
      simp [jErase, hp, jGet, hq, ih, hk1]
    · by_cases hq : p.1 = k'
      · simp [jErase, hp, jGet, hq, h]
      · simp [jErase, hp, jGet, hq, ih]

theorem lexLt_asymm : ∀ a b : List Nat, lexLt a b = true → lexLt b a = false
  | [], [], _ => rfl
  | [], _ :: _, _ => rfl
  | _ :: _, [], h => by simp [lexLt] at h
  | a :: as, b :: bs, h => by
    simp only [lexLt] at h ⊢
    by_cases hab : a < b
    · have hba : ¬(b < a) := by omega
      simp [hba, hab]
    · by_cases hba : b < a
      · simp [hab, hba] at h
      · simp [hab, hba] at h ⊢
        exact lexLt_asymm as bs h

theorem lexLt_cotrans :
    ∀ a b c : List Nat, lexLt a c = true → lexLt a b = true ∨ lexLt b c = true := by
  intro a
  induction a with
  | nil =>
    intro b c h
    cases b with
    | nil => exact Or.inr h
    | cons y ys => exact Or.inl rfl
  | cons x xs ih =>
    intro b c h
    cases c with
    | nil => simp [lexLt] at h
    | cons z zs =>
      cases b with
      | nil => exact Or.inr rfl
      | cons y ys =>
        simp only [lexLt] at h ⊢
        by_cases hxz : x < z
        · by_cases hxy : x < y
          · exact Or.inl (by simp [hxy])
          · have hyz : y < z := by omega
            exact Or.inr (by simp [hyz])
        · by_cases hzx : z < x
          · simp [hxz, hzx] at h
          · simp [hxz, hzx] at h
            by_cases hxy : x < y
            · exact Or.inl (by simp [hxy])
            · by_cases hyx : y < x
              · have hyz : y < z := by omega
                exact Or.inr (by simp [hyz])
              · rcases ih ys zs h with h' | h'
                · exact Or.inl (by simp [hxy, hyx, h'])
                · have hyz : ¬(y < z) := by omega
                  have hzy : ¬(z < y) := by omega
                  exact Or.inr (by simp [hyz, hzy, h'])

theorem strLe_total (a b : String) : StrLeRel a b ∨ StrLeRel b a := by
  unfold StrLeRel strLe
  by_cases h : lexLt (strCodes b) (strCodes a) = true
  · exact Or.inr (by simp [lexLt_asymm _ _ h])
  · exact Or.inl (by simp [h])

theorem strLe_trans (a b c : String) (hab : StrLeRel a b) (hbc : StrLeRel b c) :
    StrLeRel a c := by
  unfold StrLeRel strLe at hab hbc ⊢
  simp only [Bool.not_eq_true'] at hab hbc ⊢
  by_contra hca
  simp only [Bool.not_eq_false] at hca
  rcases lexLt_cotrans (strCodes c) (strCodes b) (strCodes a) hca with h | h
  · rw [hbc] at h; exact Bool.false_ne_true h
  · rw [hab] at h; exact Bool.false_ne_true h


theorem ownedBy_eq_some (r : PgRow) (uid : String) (h : ownedBy r uid = true) :
    jFieldText r.cmetadata "owner_id" = some uid := by
  simpa [ownedBy] using h

theorem ownedBy_false_of_other (r : PgRow) (a b : String)
    (ha : ownedBy r a = true) (hne : b ≠ a) : ownedBy r b = false := by
  have hsome := ownedBy_eq_some r a ha
  simp [ownedBy, hsome]
  exact fun hab => hne hab.symm

theorem findOwned_none_of_unowned (a b : String) (reg : Registry) (r : PgRow)
    (hmem : r ∈ reg) (ha : ownedBy r a = true) (hne : b ≠ a)
    (huniq : ∀ r' ∈ reg, r'.uuid = r.uuid → r' = r) :
    findOwned b reg r.uuid = none := by
  unfold findOwned
  rw [List.find?_eq_none]
  intro x hx
  by_cases hu : x.uuid = r.uuid
  · have hxr : x = r := huniq x hx hu
    subst hxr
    simp [ownedBy_false_of_other x a b ha hne]
  · simp [hu]

theorem findOwned_fields (uid : String) (reg : Registry) (cid : String) (r : PgRow)
    (h : findOwned uid reg cid = some r) :
    r ∈ reg ∧ r.uuid = cid ∧ ownedBy r uid = true := by
  have hmem := List.mem_of_find?_eq_some h
  have hp := List.find?_some h
  simp only [Bool.and_eq_true, beq_iff_eq] at hp
  exact ⟨hmem, hp.1, hp.2⟩

theorem findOwned_pred (uid : String) (reg : Registry) (cid : String) (r : PgRow)
    (h : findOwned uid reg cid = some r) :
    (r.uuid == cid && ownedBy r uid) = true := by
  have hp := List.find?_some h
  exact hp

theorem applyMeta_mem (uid cid : String) (reg : Registry) (merged : JObj) (r : PgRow)
    (hfind : findOwned uid reg cid = some r) :
    PgRow.mk r.uuid r.name merged ∈ applyMeta uid cid reg merged := by
  obtain ⟨hmem, -, -⟩ := findOwned_fields uid reg cid r hfind
  have hp := findOwned_pred uid reg cid r hfind
  unfold applyMeta
  have h2 := List.mem_map_of_mem
    (fun x => if x.uuid == cid && ownedBy x uid then { x with cmetadata := merged } else x) hmem
  simpa [hp] using h2

theorem applyNameSet_mem (uid cid n : String) (reg : Registry) (r : PgRow)
    (hfind : findOwned uid reg cid = some r) :
    PgRow.mk r.uuid r.name (jSet r.cmetadata "name" (JValue.str n)) ∈
      applyNameSet uid cid n reg := by
  obtain ⟨hmem, -, -⟩ := findOwned_fields uid reg cid r hfind
  have hp := findOwned_pred uid reg cid r hfind
  unfold applyNameSet
  have h2 := List.mem_map_of_mem
    (fun x => if x.uuid == cid && ownedBy x uid
      then { x with cmetadata := jSet x.cmetadata "name" (JValue.str n) } else x) hmem
  simpa [hp] using h2

theorem jGet_sys_merge (m : JObj) (v w : JValue) :
    jGet (jSet (jSet m "owner_id" v) "name" w) "owner_id" = some v ∧
    jGet (jSet (jSet m "owner_id" v) "name" w) "name" = some w ∧
    ∀ k, k ≠ "owner_id" → k ≠ "name" →
      jGet (jSet (jSet m "owner_id" v) "name" w) k = jGet m k := by
  refine ⟨?_, jGet_jSet_self _ _ _, ?_⟩
  · rw [jGet_jSet_ne _ _ _ _ (by decide), jGet_jSet_self]
  · intro k h1 h2
    rw [jGet_jSet_ne _ _ _ _ h2, jGet_jSet_ne _ _ _ _ h1]

/-! ## Claim theorems -/

/-- Claim C3 (confirmed): deleting a collection twice in a row succeeds
both times and the second call is a pure no-op.  In the langconnect
registry the second `delete` reports 0 rows affected and leaves the
registry exactly as the first call left it; in ragbackend the second saga
run stops at the resolve step without touching any store, and the HTTP
route acknowledges 204 on both calls regardless. -/
theorem delete_collection_idempotent (uid cid : String) (reg : Registry)
    (st : RbState) (f g : SagaFlags) :
    cmDelete uid (cmDelete uid reg cid).2 cid = (0, (cmDelete uid reg cid).2) ∧
    rbDeleteCollection (rbDeleteCollection st uid cid f).2.1 uid cid g =
      (false, (rbDeleteCollection st uid cid f).2.1, [SagaStep.resolve]) ∧
    (rbCollectionsDeleteStatus st uid cid f).1 = 204 ∧
    (rbCollectionsDeleteStatus (rbCollectionsDeleteStatus st uid cid f).2 uid cid g).1 = 204 := by
  refine ⟨?_, ?_, rfl, rfl⟩
  · have hkeep :
        (cmDelete uid reg cid).2.filter (fun r => !(r.uuid == cid && ownedBy r uid)) =
          (cmDelete uid reg cid).2 := by
      rw [List.filter_eq_self]
      intro x hx
      simp only [cmDelete] at hx
      exact (List.mem_filter.mp hx).2
    simp [cmDelete, hkeep]
  · have hcoll : ∀ x ∈ (rbDeleteCollection st uid cid f).2.1.collections,
        ¬(x.uuid == cid) = true := by
      intro x hx
      cases hf : st.collections.find? (fun r => r.uuid == cid) with
      | none =>
        simp only [rbDeleteCollection, hf] at hx
        have := List.find?_eq_none.mp hf x hx
        simpa using this
      | some row =>
        simp only [rbDeleteCollection, hf] at hx
        have := (List.mem_filter.mp hx).2
        simpa using this
    have hnone : (rbDeleteCollection st uid cid f).2.1.collections.find?
        (fun r => r.uuid == cid) = none :=
      List.find?_eq_none.mpr hcoll
    revert hnone
    generalize (rbDeleteCollection st uid cid f).2.1 = st1
    intro hnone
    simp [rbDeleteCollection, hnone]

/-- Claim C1 (amended, proved part): in the langconnect registry,
ownership isolation holds — for a collection row owned by `a` and any
`b ≠ a`, the scoped `get` returns no result, the scoped `delete` affects
0 rows and leaves the registry untouched, and `b`'s listing omits the
collection. -/
theorem langconnect_ownership_isolation (a b : String) (reg : Registry) (r : PgRow)
    (hmem : r ∈ reg) (ha : ownedBy r a = true) (hne : b ≠ a)
    (huniq : ∀ r' ∈ reg, r'.uuid = r.uuid → r' = r) :
    cmGet b reg r.uuid = none ∧
    cmDelete b reg r.uuid = (0, reg) ∧
    ∀ d ∈ cmList b reg, d.uuid ≠ r.uuid := by
  have hnone := findOwned_none_of_unowned a b reg r hmem ha hne huniq
  refine ⟨by simp [cmGet, hnone], ?_, ?_⟩
  · have hkeep : reg.filter (fun x => !(x.uuid == r.uuid && ownedBy x b)) = reg := by
      rw [List.filter_eq_self]
      intro x hx
      have h1 := List.find?_eq_none.mp hnone x hx
      simp only [Bool.not_eq_true] at h1
      simp [h1]
    simp only [cmDelete]
    rw [hkeep, Nat.sub_self]
  · intro d hd
    simp only [cmList, List.mem_map] at hd
    obtain ⟨row, hrow, hdrow⟩ := hd
    rw [List.mem_insertionSort] at hrow
    rw [List.mem_filter] at hrow
    intro hduuid
    have hru : row.uuid = r.uuid := by
      rw [← hdrow] at hduuid
      simpa [detailsOfMeta] using hduuid
    have hrr : row = r := huniq row hrow.1 hru
    rw [hrr] at hrow
    rw [ownedBy_false_of_other r a b ha hne] at hrow
    exact Bool.false_ne_true hrow.2

/-- Witness for C1's proved theorem at a concrete registry. -/
theorem langconnect_ownership_isolation_witness :
    cmGet "bob" [{ uuid := "u1", name := "t1",
                   cmetadata := [("owner_id", JValue.str "alice")] }] "u1" = none ∧
    cmDelete "bob" [{ uuid := "u1", name := "t1",
                      cmetadata := [("owner_id", JValue.str "alice")] }] "u1" =
      (0, [{ uuid := "u1", name := "t1",
             cmetadata := [("owner_id", JValue.str "alice")] }]) ∧
    ∀ d ∈ cmList "bob" [{ uuid := "u1", name := "t1",
                          cmetadata := [("owner_id", JValue.str "alice")] }],
      d.uuid ≠ "u1" :=
  langconnect_ownership_isolation "alice" "bob"
    [{ uuid := "u1", name := "t1", cmetadata := [("owner_id", JValue.str "alice")] }]
    { uuid := "u1", name := "t1", cmetadata := [("owner_id", JValue.str "alice")] }
    (by decide) (by decide) (by decide) (by decide)

/-- Claim C1 (counterexample): the ragbackend `CollectionManager` applies
no ownership predicate: after `alice` creates a collection, `bob`'s get
returns it, `bob`'s listing contains it, and `bob`'s delete removes it
(affecting 1 registry row, not 0). -/
theorem ragbackend_isolation_counterexample :
    (rbGetCollection
        (rbCreateCollection
          { collections := [], fileRows := [], blobs := [], tables := [] }
          "c1" "docs" (some [("owner_id", JValue.str "alice")]) "default").2
        "c1" =
      .ok (rbCreateCollection
          { collections := [], fileRows := [], blobs := [], tables := [] }
          "c1" "docs" (some [("owner_id", JValue.str "alice")]) "default").1) ∧
    (rbListCollections
        (rbCreateCollection
          { collections := [], fileRows := [], blobs := [], tables := [] }
          "c1" "docs" (some [("owner_id", JValue.str "alice")]) "default").2).length = 1 ∧
    (rbDeleteCollection
        (rbCreateCollection
          { collections := [], fileRows := [], blobs := [], tables := [] }
          "c1" "docs" (some [("owner_id", JValue.str "alice")]) "default").2
        "bob" "c1" noFail).1 = true ∧
    (rbDeleteCollection
        (rbCreateCollection
          { collections := [], fileRows := [], blobs := [], tables := [] }
          "c1" "docs" (some [("owner_id", JValue.str "alice")]) "default").2
        "bob" "c1" noFail).2.1.collections = [] := by
  refine ⟨by decide, by decide, by decide, by decide⟩

/-- Claim C2 (amended): when the registry row resolves, the saga always
runs resolve, then the blob wipe, then — only if the blob wipe did not
raise — the catalog wipe (both live in one best-effort try block, so a
blob failure skips the catalog step), then the table drop, and the
registry delete last; catalog and drop failures never abort the later
steps, and the registry row is removed in every case. -/
theorem delete_collection_saga_order (st : RbState) (uid cid : String)
    (f : SagaFlags) (row : RbCollRow)
    (hf : st.collections.find? (fun r => r.uuid == cid) = some row) :
    (rbDeleteCollection st uid cid f).2.2 =
      [SagaStep.resolve, SagaStep.blobWipe] ++
        (if f.blobFail then [] else [SagaStep.catalogWipe]) ++
        [SagaStep.dropTbl, SagaStep.registryDelete] ∧
    (rbDeleteCollection st uid cid f).2.1.collections =
      st.collections.filter (fun r => !(r.uuid == cid)) := by
  obtain ⟨bf, cf, df⟩ := f
  cases bf <;> cases df <;> simp [rbDeleteCollection, hf]

/-- Witness for C2's proved theorem on a concrete state and a
catalog-failure flag vector. -/
theorem delete_collection_saga_order_witness :
    (rbDeleteCollection
        { collections := [{ uuid := "c1", name := "docs", tableId := "t1",
                            metadata := [], embeddingModel := "default" }],
          fileRows := [], blobs := [], tables := [("t1", [])] }
        "alice" "c1" ⟨false, true, false⟩).2.2 =
      [SagaStep.resolve, SagaStep.blobWipe] ++
        (if (⟨false, true, false⟩ : SagaFlags).blobFail then []
         else [SagaStep.catalogWipe]) ++
        [SagaStep.dropTbl, SagaStep.registryDelete] ∧
    (rbDeleteCollection
        { collections := [{ uuid := "c1", name := "docs", tableId := "t1",
                            metadata := [], embeddingModel := "default" }],
          fileRows := [], blobs := [], tables := [("t1", [])] }
        "alice" "c1" ⟨false, true, false⟩).2.1.collections =
      List.filter (fun r => !(r.uuid == "c1"))
        [{ uuid := "c1", name := "docs", tableId := "t1",
           metadata := [], embeddingModel := "default" }] :=
  delete_collection_saga_order
    { collections := [{ uuid := "c1", name := "docs", tableId := "t1",
                        metadata := [], embeddingModel := "default" }],
      fileRows := [], blobs := [], tables := [("t1", [])] }
    "alice" "c1" ⟨false, true, false⟩
    { uuid := "c1", name := "docs", tableId := "t1",
      metadata := [], embeddingModel := "default" }
    (by decide)

/-- Claim C2 (counterexample): a failing blob wipe skips the catalog
step — the trace omits `catalogWipe` and the collection's File Metadata
Catalog row survives — even though the remaining drop and registry-delete
steps still run.  This contradicts the claim that a blob-step failure
does not abort the remaining (catalog) step. -/
theorem delete_collection_saga_counterexample :
    (rbDeleteCollection
        { collections := [{ uuid := "c1", name := "docs", tableId := "t1",
                            metadata := [], embeddingModel := "default" }],
          fileRows := [{ fileId := "f1", userId := "alice", collectionId := "c1",
                         filename := "a.txt", objectPath := "alice/c1/f1",
                         fileSize := 40 }],
          blobs := ["alice/c1/f1"], tables := [("t1", [])] }
        "alice" "c1" ⟨true, false, false⟩) =
      (true,
       { collections := [],
         fileRows := [{ fileId := "f1", userId := "alice", collectionId := "c1",
                        filename := "a.txt", objectPath := "alice/c1/f1",
                        fileSize := 40 }],
         blobs := ["alice/c1/f1"], tables := [] },
       [SagaStep.resolve, SagaStep.blobWipe, SagaStep.dropTbl,
        SagaStep.registryDelete]) ∧
    SagaStep.catalogWipe ∉
      (rbDeleteCollection
        { collections := [{ uuid := "c1", name := "docs", tableId := "t1",
                            metadata := [], embeddingModel := "default" }],
          fileRows := [{ fileId := "f1", userId := "alice", collectionId := "c1",
                         filename := "a.txt", objectPath := "alice/c1/f1",
                         fileSize := 40 }],
          blobs := ["alice/c1/f1"], tables := [("t1", [])] }
        "alice" "c1" ⟨true, false, false⟩).2.2 := by
  refine ⟨by decide, by decide⟩

/-- Claim C8 (amended, proved part): langconnect collection operations
resolve ownership inside the scoped query, so an unowned id yields the
same NotFound outcome as a missing one; the ragbackend file endpoints
instead fetch by id and then check ownership, answering 403 "Access
denied" exactly when the file exists under another user, and 404 only
when it does not exist. -/
theorem ownership_failure_surface (a b : String) (reg : Registry) (r : PgRow)
    (hmem : r ∈ reg) (ha : ownedBy r a = true) (hne : b ≠ a)
    (huniq : ∀ r' ∈ reg, r'.uuid = r.uuid → r' = r) :
    (∀ n m, cmUpdate b reg r.uuid (some n) (some m) = .error .notFound ∧
            cmUpdate b reg r.uuid (some n) none = .error .notFound ∧
            cmUpdate b reg r.uuid none (some m) = .error .notFound) ∧
    (∀ uid fid st fr, st.fileRows.find? (fun x => x.fileId == fid) = some fr →
        fr.userId ≠ uid →
        rbGetFileInfo uid fid st = .httpError 403 ∧
        (rbDeleteFileEp uid fid st).1 = .httpError 403) ∧
    (∀ uid fid st, st.fileRows.find? (fun x => x.fileId == fid) = none →
        rbGetFileInfo uid fid st = .httpError 404 ∧
        (rbDeleteFileEp uid fid st).1 = .httpError 404) := by
  have hnone := findOwned_none_of_unowned a b reg r hmem ha hne huniq
  refine ⟨?_, ?_, ?_⟩
  · intro n m
    refine ⟨?_, ?_, ?_⟩ <;> simp [cmUpdate, hnone, cmGet]
  · intro uid fid st fr hfr hown
    constructor <;> simp [rbGetFileInfo, rbDeleteFileEp, hfr, hown]
  · intro uid fid st hnf
    constructor <;> simp [rbGetFileInfo, rbDeleteFileEp, hnf]

/-- Witness for C8's proved theorem at concrete registries and states. -/
theorem ownership_failure_surface_witness :
    (∀ n m, cmUpdate "bob"
        [{ uuid := "u1", name := "t1",
           cmetadata := [("owner_id", JValue.str "alice")] }] "u1"
        (some n) (some m) = .error .notFound ∧
      cmUpdate "bob"
        [{ uuid := "u1", name := "t1",
           cmetadata := [("owner_id", JValue.str "alice")] }] "u1"
        (some n) none = .error .notFound ∧
      cmUpdate "bob"
        [{ uuid := "u1", name := "t1",
           cmetadata := [("owner_id", JValue.str "alice")] }] "u1"
        none (some m) = .error .notFound) ∧
    (∀ uid fid st fr, st.fileRows.find? (fun x => x.fileId == fid) = some fr →
        fr.userId ≠ uid →
        rbGetFileInfo uid fid st = .httpError 403 ∧
        (rbDeleteFileEp uid fid st).1 = .httpError 403) ∧
    (∀ uid fid st, st.fileRows.find? (fun x => x.fileId == fid) = none →
        rbGetFileInfo uid fid st = .httpError 404 ∧
        (rbDeleteFileEp uid fid st).1 = .httpError 404) :=
  ownership_failure_surface "alice" "bob"
    [{ uuid := "u1", name := "t1", cmetadata := [("owner_id", JValue.str "alice")] }]
    { uuid := "u1", name := "t1", cmetadata := [("owner_id", JValue.str "alice")] }
    (by decide) (by decide) (by decide) (by decide)

/-- Claim C8 (counterexample): the ragbackend file-info endpoint answers
403 "Access denied" for another tenant's existing file — a distinct
outcome from the 404 a nonexistent file gets, contradicting the claim
that ownership failures are indistinguishable from not-found. -/
theorem ownership_failure_surface_counterexample :
    rbGetFileInfo "bob" "f1"
      { collections := [], blobs := [], tables := [],
        fileRows := [{ fileId := "f1", userId := "alice", collectionId := "c1",
                       filename := "a.txt", objectPath := "alice/c1/f1",
                       fileSize := 40 }] } = .httpError 403 ∧
    rbGetFileInfo "bob" "missing"
      { collections := [], blobs := [], tables := [],
        fileRows := [{ fileId := "f1", userId := "alice", collectionId := "c1",
                       filename := "a.txt", objectPath := "alice/c1/f1",
                       fileSize := 40 }] } = .httpError 404 ∧
    (FileEpResult.httpError 403 ≠ FileEpResult.httpError 404) := by
  refine ⟨by decide, by decide, by decide⟩

/-- Claim C9 (amended, proved part): a metadata update replaces the
stored map wholesale — in langconnect the stored metadata becomes exactly
the supplied map plus the reinserted system keys `owner_id` and `name`,
so every previously stored tenant key absent from the supplied map is
lost; in ragbackend the metadata column becomes exactly the supplied map,
with no `owner_id` reinsertion at all. -/
theorem metadata_update_wholesale (uid : String) (reg : Registry) (cid : String)
    (m : JObj) (r : PgRow) (hfind : findOwned uid reg cid = some r) :
    (∃ d reg', cmUpdate uid reg cid none (some m) = .ok (d, reg') ∧
      ∃ row ∈ reg', row.uuid = cid ∧
        jGet row.cmetadata "owner_id" = some (JValue.str uid) ∧
        (∀ k, k ≠ "owner_id" → k ≠ "name" → jGet row.cmetadata k = jGet m k) ∧
        (∀ k, k ≠ "owner_id" → k ≠ "name" → jGet m k = none →
          jGet row.cmetadata k = none)) ∧
    (∀ st cid' r' m', st.collections.find? (fun x => x.uuid == cid') = some r' →
      ∃ row' st', rbUpdateCollection st cid' none (some m') = .ok (row', st') ∧
        row'.metadata = m' ∧
        ∀ x ∈ st'.collections, x.uuid = cid' → x.metadata = m') := by
  constructor
  · obtain ⟨hmem, huuid, hown⟩ := findOwned_fields uid reg cid r hfind
    refine ⟨detailsOfMeta cid (jSet (jSet m "owner_id" (JValue.str uid)) "name"
        ((jGet r.cmetadata "name").getD (JValue.str "Unnamed"))),
      applyMeta uid cid reg (jSet (jSet m "owner_id" (JValue.str uid)) "name"
        ((jGet r.cmetadata "name").getD (JValue.str "Unnamed"))),
      by simp [cmUpdate, hfind],
      PgRow.mk r.uuid r.name (jSet (jSet m "owner_id" (JValue.str uid)) "name"
        ((jGet r.cmetadata "name").getD (JValue.str "Unnamed"))),
      applyMeta_mem uid cid reg _ r hfind, huuid, ?_, ?_, ?_⟩
    · exact (jGet_sys_merge m (JValue.str uid) _).1
    · intro k hk1 hk2
      exact (jGet_sys_merge m (JValue.str uid) _).2.2 k hk1 hk2
    · intro k hk1 hk2 hnone
      exact ((jGet_sys_merge m (JValue.str uid) _).2.2 k hk1 hk2).trans hnone
  · intro st cid' r' m' hfr
    refine ⟨RbCollRow.mk r'.uuid r'.name r'.tableId m' r'.embeddingModel,
      RbState.mk (st.collections.map (fun x => if x.uuid == cid'
        then RbCollRow.mk r'.uuid r'.name r'.tableId m' r'.embeddingModel else x))
        st.fileRows st.blobs st.tables,
      by simp [rbUpdateCollection, hfr], rfl, ?_⟩
    intro x hx hxu
    simp only [List.mem_map] at hx
    obtain ⟨y, hy, hyx⟩ := hx
    by_cases hyu : y.uuid = cid'
    · simp only [hyu, beq_self_eq_true, if_true] at hyx
      rw [← hyx]
    · simp only [beq_iff_eq, hyu, if_false] at hyx
      rw [← hyx] at hxu
      exact absurd hxu hyu

/-- Witness for C9's proved theorem at a concrete registry and state. -/
theorem metadata_update_wholesale_witness :
    (∃ d reg', cmUpdate "alice"
        [{ uuid := "u1", name := "t1",
           cmetadata := [("owner_id", JValue.str "alice"), ("old", JValue.num 7),
                         ("name", JValue.str "docs")] }]
        "u1" none (some [("b", JValue.num 2)]) = .ok (d, reg') ∧
      ∃ row ∈ reg', row.uuid = "u1" ∧
        jGet row.cmetadata "owner_id" = some (JValue.str "alice") ∧
        (∀ k, k ≠ "owner_id" → k ≠ "name" →
          jGet row.cmetadata k = jGet [("b", JValue.num 2)] k) ∧
        (∀ k, k ≠ "owner_id" → k ≠ "name" → jGet [("b", JValue.num 2)] k = none →
          jGet row.cmetadata k = none)) ∧
    (∀ st cid' r' m', st.collections.find? (fun x => x.uuid == cid') = some r' →
      ∃ row' st', rbUpdateCollection st cid' none (some m') = .ok (row', st') ∧
        row'.metadata = m' ∧
        ∀ x ∈ st'.collections, x.uuid = cid' → x.metadata = m') :=
  metadata_update_wholesale "alice"
    [{ uuid := "u1", name := "t1",
       cmetadata := [("owner_id", JValue.str "alice"), ("old", JValue.num 7),
                     ("name", JValue.str "docs")] }]
    "u1" [("b", JValue.num 2)]
    { uuid := "u1", name := "t1",
      cmetadata := [("owner_id", JValue.str "alice"), ("old", JValue.num 7),
                    ("name", JValue.str "docs")] }
    (by decide)

/-- Claim C9 (counterexample): ragbackend's `update_collection` stores
the supplied map verbatim — after updating with a map without `owner_id`,
the stored metadata has no `owner_id` key, so the claimed system
reinsertion of `owner_id` does not happen there. -/
theorem metadata_update_wholesale_counterexample :
    rbUpdateCollection
      { collections := [{ uuid := "c1", name := "docs", tableId := "t1",
                          metadata := [("owner_id", JValue.str "alice"),
                                       ("a", JValue.num 1)],
                          embeddingModel := "default" }],
        fileRows := [], blobs := [], tables := [("t1", [])] }
      "c1" none (some [("b", JValue.num 2)]) =
      .ok ({ uuid := "c1", name := "docs", tableId := "t1",
             metadata := [("b", JValue.num 2)], embeddingModel := "default" },
           { collections := [{ uuid := "c1", name := "docs", tableId := "t1",
                               metadata := [("b", JValue.num 2)],
                               embeddingModel := "default" }],
             fileRows := [], blobs := [], tables := [("t1", [])] }) ∧
    jGet [("b", JValue.num 2)] "owner_id" = none := by
  refine ⟨by decide, by decide⟩

/-- Claim C4 (amended, proved part): the langconnect update case matrix —
no argument is a Validation error; only a name rewrites just the `"name"`
key of the stored metadata; only metadata preserves the display name;
both arguments change both; zero rows matched by the ownership-scoped
statement (missing or unowned id) is NotFound.  In ragbackend the
no-argument case instead returns the unchanged collection as success (the
counterexample), and existence is checked by id alone. -/
theorem update_case_matrix (uid : String) (reg : Registry) (cid : String) :
    cmUpdate uid reg cid none none = .error .validation ∧
    (∀ r n, findOwned uid reg cid = some r →
      ∃ d reg', cmUpdate uid reg cid (some n) none = .ok (d, reg') ∧
        d.name = JValue.str n ∧
        ∃ row ∈ reg', row.uuid = cid ∧
          jGet row.cmetadata "name" = some (JValue.str n) ∧
          ∀ k, k ≠ "name" → jGet row.cmetadata k = jGet r.cmetadata k) ∧
    (∀ r m, findOwned uid reg cid = some r →
      ∃ d reg', cmUpdate uid reg cid none (some m) = .ok (d, reg') ∧
        d.name = (jGet r.cmetadata "name").getD (JValue.str "Unnamed")) ∧
    (∀ r n m, findOwned uid reg cid = some r →
      ∃ d reg', cmUpdate uid reg cid (some n) (some m) = .ok (d, reg') ∧
        d.name = JValue.str n ∧
        ∃ row ∈ reg', row.uuid = cid ∧
          jGet row.cmetadata "name" = some (JValue.str n) ∧
          jGet row.cmetadata "owner_id" = some (JValue.str uid) ∧
          ∀ k, k ≠ "owner_id" → k ≠ "name" → jGet row.cmetadata k = jGet m k) ∧
    (findOwned uid reg cid = none →
      ∀ n m, cmUpdate uid reg cid (some n) none = .error .notFound ∧
        cmUpdate uid reg cid none (some m) = .error .notFound ∧
        cmUpdate uid reg cid (some n) (some m) = .error .notFound) := by
  refine ⟨rfl, ?_, ?_, ?_, ?_⟩
  · intro r n hfind
    obtain ⟨hmem, huuid, hown⟩ := findOwned_fields uid reg cid r hfind
    refine ⟨detailsOfMeta cid (jSet r.cmetadata "name" (JValue.str n)),
      applyNameSet uid cid n reg,
      by simp [cmUpdate, hfind],
      by simp [detailsOfMeta, jGet_jSet_self],
      PgRow.mk r.uuid r.name (jSet r.cmetadata "name" (JValue.str n)),
      applyNameSet_mem uid cid n reg r hfind, huuid, ?_, ?_⟩
    · exact jGet_jSet_self _ _ _
    · intro k hk
      exact jGet_jSet_ne _ _ _ _ hk
  · intro r m hfind
    refine ⟨detailsOfMeta cid (jSet (jSet m "owner_id" (JValue.str uid)) "name"
        ((jGet r.cmetadata "name").getD (JValue.str "Unnamed"))),
      applyMeta uid cid reg (jSet (jSet m "owner_id" (JValue.str uid)) "name"
        ((jGet r.cmetadata "name").getD (JValue.str "Unnamed"))),
      by simp [cmUpdate, hfind], ?_⟩
    simp [detailsOfMeta, jGet_jSet_self]
  · intro r n m hfind
    obtain ⟨hmem, huuid, hown⟩ := findOwned_fields uid reg cid r hfind
    refine ⟨detailsOfMeta cid (jSet (jSet m "owner_id" (JValue.str uid)) "name"
        (JValue.str n)),
      applyMeta uid cid reg (jSet (jSet m "owner_id" (JValue.str uid)) "name"
        (JValue.str n)),
      by simp [cmUpdate, hfind],
      by simp [detailsOfMeta, jGet_jSet_self],
      PgRow.mk r.uuid r.name (jSet (jSet m "owner_id" (JValue.str uid)) "name"
        (JValue.str n)),
      applyMeta_mem uid cid reg _ r hfind, huuid, ?_, ?_, ?_⟩
    · exact (jGet_sys_merge m (JValue.str uid) _).2.1
    · exact (jGet_sys_merge m (JValue.str uid) _).1
    · intro k hk1 hk2
      exact (jGet_sys_merge m (JValue.str uid) _).2.2 k hk1 hk2
  · intro hnone n m
    refine ⟨?_, ?_, ?_⟩ <;> simp [cmUpdate, hnone]

/-- Witness for C4's proved theorem at a concrete one-row registry. -/
theorem update_case_matrix_witness :
    cmUpdate "alice"
      [{ uuid := "u1", name := "t1",
         cmetadata := [("owner_id", JValue.str "alice"), ("name", JValue.str "docs"),
                       ("a", JValue.num 1)] }] "u1" none none = .error .validation ∧
    (∃ d reg', cmUpdate "alice"
        [{ uuid := "u1", name := "t1",
           cmetadata := [("owner_id", JValue.str "alice"), ("name", JValue.str "docs"),
                         ("a", JValue.num 1)] }] "u1" (some "n2") none = .ok (d, reg') ∧
      d.name = JValue.str "n2" ∧
      ∃ row ∈ reg', row.uuid = "u1" ∧
        jGet row.cmetadata "name" = some (JValue.str "n2") ∧
        ∀ k, k ≠ "name" → jGet row.cmetadata k =
          jGet [("owner_id", JValue.str "alice"), ("name", JValue.str "docs"),
                ("a", JValue.num 1)] k) ∧
    (∃ d reg', cmUpdate "alice"
        [{ uuid := "u1", name := "t1",
           cmetadata := [("owner_id", JValue.str "alice"), ("name", JValue.str "docs"),
                         ("a", JValue.num 1)] }] "u1" none (some [("b", JValue.num 2)]) =
        .ok (d, reg') ∧
      d.name = (jGet [("owner_id", JValue.str "alice"), ("name", JValue.str "docs"),
                      ("a", JValue.num 1)] "name").getD (JValue.str "Unnamed")) ∧
    (∃ d reg', cmUpdate "alice"
        [{ uuid := "u1", name := "t1",
           cmetadata := [("owner_id", JValue.str "alice"), ("name", JValue.str "docs"),
                         ("a", JValue.num 1)] }] "u1" (some "n2") (some [("b", JValue.num 2)]) =
        .ok (d, reg') ∧
      d.name = JValue.str "n2" ∧
      ∃ row ∈ reg', row.uuid = "u1" ∧
        jGet row.cmetadata "name" = some (JValue.str "n2") ∧
        jGet row.cmetadata "owner_id" = some (JValue.str "alice") ∧
        ∀ k, k ≠ "owner_id" → k ≠ "name" →
          jGet row.cmetadata k = jGet [("b", JValue.num 2)] k) := by
  obtain ⟨h1, h2, h3, h4, h5⟩ := update_case_matrix "alice"
    [{ uuid := "u1", name := "t1",
       cmetadata := [("owner_id", JValue.str "alice"), ("name", JValue.str "docs"),
                     ("a", JValue.num 1)] }] "u1"
  exact ⟨h1,
    h2 { uuid := "u1", name := "t1",
         cmetadata := [("owner_id", JValue.str "alice"), ("name", JValue.str "docs"),
                       ("a", JValue.num 1)] } "n2" (by decide),
    h3 { uuid := "u1", name := "t1",
         cmetadata := [("owner_id", JValue.str "alice"), ("name", JValue.str "docs"),
                       ("a", JValue.num 1)] } [("b", JValue.num 2)] (by decide),
    h4 { uuid := "u1", name := "t1",
         cmetadata := [("owner_id", JValue.str "alice"), ("name", JValue.str "docs"),
                       ("a", JValue.num 1)] } "n2" [("b", JValue.num 2)] (by decide)⟩

/-- Claim C4 (counterexample): ragbackend's `update_collection` with
neither a name nor a metadata argument returns the unchanged collection
as a success, not a Validation error. -/
theorem update_case_matrix_counterexample :
    rbUpdateCollection
      { collections := [{ uuid := "c1", name := "docs", tableId := "t1",
                          metadata := [("a", JValue.num 1)],
                          embeddingModel := "default" }],
        fileRows := [], blobs := [], tables := [("t1", [])] }
      "c1" none none =
      .ok ({ uuid := "c1", name := "docs", tableId := "t1",
             metadata := [("a", JValue.num 1)], embeddingModel := "default" },
           { collections := [{ uuid := "c1", name := "docs", tableId := "t1",
                               metadata := [("a", JValue.num 1)],
                               embeddingModel := "default" }],
             fileRows := [], blobs := [], tables := [("t1", [])] }) := by
  decide

/-- Claim C5 (amended, proved part): the langconnect `create` merges
`owner_id` into the stored metadata, overwriting any tenant-supplied
value, and the create/get round trip returns the chosen display name and
a metadata map carrying the tenant keys plus `owner_id = owner`.  The
ragbackend `create_collection` instead stores the supplied metadata
verbatim (the counterexample). -/
theorem create_get_round_trip (uid : String) (reg : Registry)
    (u t cname : String) (m : JObj)
    (hU : ∀ r ∈ reg, r.uuid ≠ u) (hT : ∀ r ∈ reg, r.name ≠ t) :
    ∃ d reg2, cmCreate uid reg u t cname m = (some d, reg2) ∧
      d.uuid = u ∧ d.name = JValue.str cname ∧
      jGet d.metadata "owner_id" = some (JValue.str uid) ∧
      (∀ k, k ≠ "owner_id" → k ≠ "name" → jGet d.metadata k = jGet m k) ∧
      ∃ g, cmGet uid reg2 u = some g ∧ g.name = JValue.str cname ∧
        jGet g.metadata "owner_id" = some (JValue.str uid) ∧
        ∀ k, k ≠ "owner_id" → k ≠ "name" → jGet g.metadata k = jGet m k := by
  have howner : jFieldText (jSet (jSet m "owner_id" (JValue.str uid)) "name"
      (JValue.str cname)) "owner_id" = some uid := by
    unfold jFieldText
    rw [(jGet_sys_merge m (JValue.str uid) (JValue.str cname)).1]
    rfl
  have hrowp : ownedBy (PgRow.mk u t (jSet (jSet m "owner_id" (JValue.str uid)) "name"
      (JValue.str cname))) uid = true := by
    simp [ownedBy, howner]
  have hfindT : List.find? (fun r => r.name == t && ownedBy r uid)
      (reg ++ [PgRow.mk u t (jSet (jSet m "owner_id" (JValue.str uid)) "name"
        (JValue.str cname))]) =
      some (PgRow.mk u t (jSet (jSet m "owner_id" (JValue.str uid)) "name"
        (JValue.str cname))) := by
    rw [List.find?_append]
    have h1 : List.find? (fun r => r.name == t && ownedBy r uid) reg = none := by
      rw [List.find?_eq_none]
      intro x hx
      simp [hT x hx]
    rw [h1]
    simp [List.find?, hrowp]
  have hfindU : findOwned uid (reg ++ [PgRow.mk u t (jSet (jSet m "owner_id"
      (JValue.str uid)) "name" (JValue.str cname))]) u =
      some (PgRow.mk u t (jSet (jSet m "owner_id" (JValue.str uid)) "name"
        (JValue.str cname))) := by
    unfold findOwned
    rw [List.find?_append]
    have h1 : List.find? (fun r => r.uuid == u && ownedBy r uid) reg = none := by
      rw [List.find?_eq_none]
      intro x hx
      simp [hU x hx]
    rw [h1]
    simp [List.find?, hrowp]
  have hmetaOwner : jGet (jErase (jSet (jSet m "owner_id" (JValue.str uid)) "name"
      (JValue.str cname)) "name") "owner_id" = some (JValue.str uid) := by
    rw [jGet_jErase_ne _ _ _ (by decide)]
    exact (jGet_sys_merge m (JValue.str uid) (JValue.str cname)).1
  have hmetaKeys : ∀ k, k ≠ "owner_id" → k ≠ "name" →
      jGet (jErase (jSet (jSet m "owner_id" (JValue.str uid)) "name"
        (JValue.str cname)) "name") k = jGet m k := by
    intro k h1 h2
    rw [jGet_jErase_ne _ _ _ h2]
    exact (jGet_sys_merge m (JValue.str uid) (JValue.str cname)).2.2 k h1 h2
  refine ⟨detailsOfMeta u (jSet (jSet m "owner_id" (JValue.str uid)) "name"
      (JValue.str cname)),
    reg ++ [PgRow.mk u t (jSet (jSet m "owner_id" (JValue.str uid)) "name"
      (JValue.str cname))],
    by simp [cmCreate, hfindT],
    rfl,
    by simp [detailsOfMeta, (jGet_sys_merge m (JValue.str uid) (JValue.str cname)).2.1],
    hmetaOwner, hmetaKeys, ?_⟩
  refine ⟨CollectionDetails.mk u
      ((jGet (jSet (jSet m "owner_id" (JValue.str uid)) "name" (JValue.str cname))
        "name").getD (JValue.str "Unnamed"))
      (jErase (jSet (jSet m "owner_id" (JValue.str uid)) "name" (JValue.str cname))
        "name")
      (some t),
    by simp [cmGet, hfindU, detailsOfMeta], ?_, hmetaOwner, hmetaKeys⟩
  simp [(jGet_sys_merge m (JValue.str uid) (JValue.str cname)).2.1]

/-- Witness for C5's proved theorem on the empty registry. -/
theorem create_get_round_trip_witness :
    ∃ d reg2, cmCreate "alice" [] "u1" "t1" "n" [("a", JValue.num 1)] =
        (some d, reg2) ∧
      d.uuid = "u1" ∧ d.name = JValue.str "n" ∧
      jGet d.metadata "owner_id" = some (JValue.str "alice") ∧
      (∀ k, k ≠ "owner_id" → k ≠ "name" →
        jGet d.metadata k = jGet [("a", JValue.num 1)] k) ∧
      ∃ g, cmGet "alice" reg2 "u1" = some g ∧ g.name = JValue.str "n" ∧
        jGet g.metadata "owner_id" = some (JValue.str "alice") ∧
        ∀ k, k ≠ "owner_id" → k ≠ "name" →
          jGet g.metadata k = jGet [("a", JValue.num 1)] k :=
  create_get_round_trip "alice" [] "u1" "t1" "n" [("a", JValue.num 1)]
    (by simp) (by simp)

/-- Claim C5 (counterexample): ragbackend's `create_collection` does not
merge `owner_id` — a tenant-supplied `owner_id` value survives creation
verbatim, so the stored and returned metadata carry `"mallory"` instead
of the creating owner `"alice"`. -/
theorem create_overwrites_owner_counterexample :
    (rbCreateCollection
        { collections := [], fileRows := [], blobs := [], tables := [] }
        "c1" "docs" (some [("owner_id", JValue.str "mallory"), ("a", JValue.num 1)])
        "default").1.metadata =
      [("owner_id", JValue.str "mallory"), ("a", JValue.num 1)] ∧
    (∃ row, rbGetCollection
        (rbCreateCollection
          { collections := [], fileRows := [], blobs := [], tables := [] }
          "c1" "docs" (some [("owner_id", JValue.str "mallory"), ("a", JValue.num 1)])
          "default").2 "c1" = .ok row ∧
      jGet row.metadata "owner_id" = some (JValue.str "mallory")) ∧
    some (JValue.str "mallory") ≠ some (JValue.str "alice") := by
  refine ⟨by decide, ⟨{ uuid := "c1", name := "docs", tableId := "collection_c1",
                        metadata := [("owner_id", JValue.str "mallory"),
                                     ("a", JValue.num 1)],
                        embeddingModel := "default" }, by decide, by decide⟩, by decide⟩

/-- Claim C7 (amended, proved part): langconnect `Collection.delete`
removes exactly the chunks of the owned collection whose
`metadata.file_id` matches, logs the count, and returns `True` — also
when zero chunks matched and the collection exists (the zero case passes
the existence check and is still a success).  The ragbackend variant
instead returns `False` on zero matches (the counterexample), and neither
variant returns the deleted count to its caller. -/
theorem delete_by_file_id_zero_ok (uid cid fid : String) (reg : Registry)
    (emb : List EmbRow) (r : PgRow) (hfind : findOwned uid reg cid = some r) :
    ∃ emb2, collDeleteByFileId uid cid fid reg emb = .ok (true, emb2) ∧
      (∀ e ∈ emb2, e ∈ emb) ∧
      (∀ e ∈ emb, e.collectionId = cid → fileIdOf e = some fid → e ∉ emb2) ∧
      (∀ e ∈ emb, e.collectionId ≠ cid ∨ fileIdOf e ≠ some fid → e ∈ emb2) := by
  have hiso : (findOwned uid reg cid).isSome = true := by rw [hfind]; rfl
  have hd : cmGet uid reg cid =
      some { detailsOfMeta r.uuid r.cmetadata with tableId := some r.name } := by
    simp [cmGet, hfind]
  refine ⟨emb.filter (fun e => !(e.collectionId == cid &&
      (findOwned uid reg cid).isSome && (fileIdOf e == some fid))), ?_, ?_, ?_, ?_⟩
  · simp only [collDeleteByFileId, hd]
    split <;> rfl
  · intro e he
    exact (List.mem_filter.mp he).1
  · intro e he hc hf hmem
    have hp := (List.mem_filter.mp hmem).2
    simp [hc, hf, hiso] at hp
  · intro e he hor
    refine List.mem_filter.mpr ⟨he, ?_⟩
    rcases hor with h | h <;> simp [h]

/-- Witness for C7's proved theorem: zero matching chunks on an existing
owned collection still returns success. -/
theorem delete_by_file_id_zero_ok_witness :
    ∃ emb2, collDeleteByFileId "alice" "u1" "f1"
        [{ uuid := "u1", name := "t1",
           cmetadata := [("owner_id", JValue.str "alice")] }] [] =
        .ok (true, emb2) ∧
      (∀ e ∈ emb2, e ∈ ([] : List EmbRow)) ∧
      (∀ e ∈ ([] : List EmbRow), e.collectionId = "u1" → fileIdOf e = some "f1" →
        e ∉ emb2) ∧
      (∀ e ∈ ([] : List EmbRow), e.collectionId ≠ "u1" ∨ fileIdOf e ≠ some "f1" →
        e ∈ emb2) :=
  delete_by_file_id_zero_ok "alice" "u1" "f1"
    [{ uuid := "u1", name := "t1", cmetadata := [("owner_id", JValue.str "alice")] }]
    []
    { uuid := "u1", name := "t1", cmetadata := [("owner_id", JValue.str "alice")] }
    (by decide)

/-- Claim C7 (counterexample): ragbackend `Collection.delete` on an
existing chunk table with zero chunks for the `file_id` returns `False`
(the failure value), not a success — contradicting the claim that a zero
count is reported as success. -/
theorem delete_by_file_id_zero_counterexample :
    rbCollFileDelete
      { collections := [{ uuid := "c1", name := "docs", tableId := "t1",
                          metadata := [], embeddingModel := "default" }],
        fileRows := [], blobs := [], tables := [("t1", [])] }
      "t1" "f1" ⟨false, false⟩ =
      (false,
       { collections := [{ uuid := "c1", name := "docs", tableId := "t1",
                           metadata := [], embeddingModel := "default" }],
         fileRows := [], blobs := [], tables := [("t1", [])] }) := by
  decide

/-- Claim C10 (confirmed): every langconnect read path that returns
collection details (list, get, create, update) pops the `"name"` key out
of the returned metadata, and a stored metadata blob without a `"name"`
key surfaces the display name `"Unnamed"`. -/
theorem collection_details_strip_name (uid : String) (reg : Registry) :
    (∀ d ∈ cmList uid reg, jGet d.metadata "name" = none) ∧
    (∀ cid d, cmGet uid reg cid = some d → jGet d.metadata "name" = none) ∧
    (∀ u t cname m d reg2, cmCreate uid reg u t cname m = (some d, reg2) →
      jGet d.metadata "name" = none) ∧
    (∀ cid nameArg mArg d reg2, cmUpdate uid reg cid nameArg mArg = .ok (d, reg2) →
      jGet d.metadata "name" = none) ∧
    (∀ cid r, findOwned uid reg cid = some r → jGet r.cmetadata "name" = none →
      ∃ d, cmGet uid reg cid = some d ∧ d.name = JValue.str "Unnamed") := by
  refine ⟨?_, ?_, ?_, ?_, ?_⟩
  · intro d hd
    simp only [cmList, List.mem_map] at hd
    obtain ⟨row, -, hrow⟩ := hd
    rw [← hrow]
    exact jGet_jErase_self _ _
  · intro cid d h
    unfold cmGet at h
    cases hf : findOwned uid reg cid <;> rw [hf] at h
    · simp at h
    · injection h with h
      rw [← h]
      exact jGet_jErase_self _ _
  · intro u t cname m d reg2 h
    simp only [cmCreate] at h
    cases hf : List.find? (fun r => r.name == t && ownedBy r uid)
        (reg ++ [PgRow.mk u t (jSet (jSet m "owner_id" (JValue.str uid)) "name"
          (JValue.str cname))]) <;> rw [hf] at h
    · simp at h
    · simp only [Prod.mk.injEq, Option.some.injEq] at h
      rw [← h.1]
      exact jGet_jErase_self _ _
  · intro cid nameArg mArg d reg2 h
    cases nameArg with
    | none =>
      cases mArg with
      | none => simp [cmUpdate] at h
      | some m =>
        unfold cmUpdate at h
        cases hf : findOwned uid reg cid <;> rw [hf] at h
        · simp at h
        · simp only [Except.ok.injEq, Prod.mk.injEq] at h
          rw [← h.1]
          exact jGet_jErase_self _ _
    | some n =>
      cases mArg with
      | none =>
        unfold cmUpdate at h
        cases hf : findOwned uid reg cid <;> rw [hf] at h
        · simp at h
        · simp only [Except.ok.injEq, Prod.mk.injEq] at h
          rw [← h.1]
          exact jGet_jErase_self _ _
      | some m =>
        unfold cmUpdate at h
        cases hf : findOwned uid reg cid <;> rw [hf] at h
        · simp at h
        · simp only [Except.ok.injEq, Prod.mk.injEq] at h
          rw [← h.1]
          exact jGet_jErase_self _ _
  · intro cid r hfind hname
    refine ⟨CollectionDetails.mk r.uuid
        ((jGet r.cmetadata "name").getD (JValue.str "Unnamed"))
        (jErase r.cmetadata "name") (some r.name),
      by simp [cmGet, hfind, detailsOfMeta], ?_⟩
    rw [show (CollectionDetails.mk r.uuid
        ((jGet r.cmetadata "name").getD (JValue.str "Unnamed"))
        (jErase r.cmetadata "name") (some r.name)).name =
        (jGet r.cmetadata "name").getD (JValue.str "Unnamed") from rfl, hname]
    rfl

/-- Witness for C10's theorem at a concrete registry whose stored
metadata lacks a `"name"` key. -/
theorem collection_details_strip_name_witness :
    (∀ d ∈ cmList "alice"
        [{ uuid := "u1", name := "t1", cmetadata := [("owner_id", JValue.str "alice")] }],
      jGet d.metadata "name" = none) ∧
    (∃ d, cmGet "alice"
        [{ uuid := "u1", name := "t1", cmetadata := [("owner_id", JValue.str "alice")] }]
        "u1" = some d ∧
      d.name = JValue.str "Unnamed") := by
  obtain ⟨h1, -, -, -, h5⟩ := collection_details_strip_name "alice"
    [{ uuid := "u1", name := "t1", cmetadata := [("owner_id", JValue.str "alice")] }]
  exact ⟨h1, h5 "u1"
    { uuid := "u1", name := "t1", cmetadata := [("owner_id", JValue.str "alice")] }
    (by decide) (by decide)⟩

theorem bestById_spec : ∀ (l : List EmbRow) (acc : Option EmbRow) (e : EmbRow),
    bestById acc l = some e →
    (acc = some e ∨ e ∈ l) ∧ (∀ a, acc = some a → e.id ≤ a.id) ∧
    (∀ x ∈ l, e.id ≤ x.id) := by
  intro l
  induction l with
  | nil =>
    intro acc e h
    cases acc with
    | none => simp [bestById] at h
    | some a =>
      simp only [bestById] at h
      injection h with h
      refine ⟨Or.inl (by rw [h]), ?_, by simp⟩
      intro b hb
      injection hb with hb
      rw [← h, ← hb]
  | cons x xs ih =>
    intro acc e h
    cases acc with
    | none =>
      obtain ⟨h1, h2, h3⟩ := ih (some x) e h
      refine ⟨?_, ?_, ?_⟩
      · rcases h1 with h1 | h1
        · injection h1 with h1
          exact Or.inr (h1 ▸ List.mem_cons_self x xs)
        · exact Or.inr (List.mem_cons_of_mem x h1)
      · intro a ha
        simp at ha
      · intro y hy
        rcases List.mem_cons.mp hy with hy | hy
        · rw [hy]
          exact h2 x rfl
        · exact h3 y hy
    | some a0 =>
      obtain ⟨h1, h2, h3⟩ := ih (some (if x.id < a0.id then x else a0)) e h
      have hle : e.id ≤ (if x.id < a0.id then x else a0).id := h2 _ rfl
      have hlex : e.id ≤ x.id ∧ e.id ≤ a0.id := by
        by_cases hc : x.id < a0.id <;> simp [hc] at hle <;> omega
      refine ⟨?_, ?_, ?_⟩
      · rcases h1 with h1 | h1
        · injection h1 with h1
          by_cases hc : x.id < a0.id
          · rw [if_pos hc] at h1
            exact Or.inr (h1 ▸ List.mem_cons_self x xs)
          · rw [if_neg hc] at h1
            exact Or.inl (by rw [h1])
        · exact Or.inr (List.mem_cons_of_mem x h1)
      · intro a ha
        injection ha with ha
        rw [← ha]
        exact hlex.2
      · intro y hy
        rcases List.mem_cons.mp hy with hy | hy
        · rw [hy]
          exact hlex.1
        · exact h3 y hy

theorem bestById_isSome : ∀ (l : List EmbRow) (a : EmbRow),
    (bestById (some a) l).isSome = true := by
  intro l
  induction l with
  | nil => intro a; rfl
  | cons x xs ih =>
    intro a
    unfold bestById
    exact ih _

theorem minIdRow_spec (rows : List EmbRow) (f : String) (e : EmbRow)
    (h : minIdRow rows f = some e) :
    e ∈ rows ∧ fileIdOf e = some f ∧
    ∀ x ∈ rows, fileIdOf x = some f → e.id ≤ x.id := by
  unfold minIdRow at h
  obtain ⟨h1, -, h3⟩ := bestById_spec _ none e h
  have hmem : e ∈ rows.filter (fun x => fileIdOf x == some f) := by
    rcases h1 with h1 | h1
    · simp at h1
    · exact h1
  obtain ⟨hm, hp⟩ := List.mem_filter.mp hmem
  refine ⟨hm, by simpa using hp, ?_⟩
  intro x hx hxf
  exact h3 x (List.mem_filter.mpr ⟨hx, by simp [hxf]⟩)

theorem minIdRow_isSome (rows : List EmbRow) (f : String) (x : EmbRow)
    (hx : x ∈ rows) (hf : fileIdOf x = some f) :
    (minIdRow rows f).isSome = true := by
  unfold minIdRow
  have hmem : x ∈ rows.filter (fun e => fileIdOf e == some f) :=
    List.mem_filter.mpr ⟨hx, by simp [hf]⟩
  cases hfl : rows.filter (fun e => fileIdOf e == some f) with
  | nil => rw [hfl] at hmem; simp at hmem
  | cons y ys =>
    exact bestById_isSome ys y

theorem filterMap_minIdRow_fids (rows : List EmbRow) :
    ∀ fs : List String, (∀ f ∈ fs, ∃ x ∈ rows, fileIdOf x = some f) →
    (fs.filterMap (minIdRow rows)).map fileIdOf = fs.map some := by
  intro fs
  induction fs with
  | nil => intro _; rfl
  | cons f fs ih =>
    intro hall
    obtain ⟨x, hx, hxf⟩ := hall f (List.mem_cons_self f fs)
    obtain ⟨e, he⟩ := Option.isSome_iff_exists.mp (minIdRow_isSome rows f x hx hxf)
    obtain ⟨-, hef, -⟩ := minIdRow_spec rows f e he
    rw [List.filterMap_cons, he, List.map_cons, List.map_cons, hef,
        ih (fun g hg => hall g (List.mem_cons_of_mem f hg))]

theorem mem_relevantRows (uid cid : String) (reg : Registry) (emb : List EmbRow)
    (r : PgRow) (hfind : findOwned uid reg cid = some r) (e : EmbRow) :
    e ∈ relevantRows uid cid reg emb ↔
      e ∈ emb ∧ e.collectionId = cid ∧ (fileIdOf e).isSome = true := by
  have hiso : (findOwned uid reg cid).isSome = true := by rw [hfind]; rfl
  unfold relevantRows
  rw [List.mem_filter]
  simp [hiso, and_assoc]

/-- Claim C6 (confirmed): the unique-file listing returns, before
pagination, exactly one representative chunk per distinct `file_id` of
the collection's chunks — the minimal-id row of each partition — sorted
by `file_id` and never a row lacking `file_id`; `OFFSET`/`LIMIT` are then
applied to that deduplicated, ordered list, so pagination ranges over
files rather than raw chunk rows. -/
theorem list_unique_files (uid cid : String) (reg : Registry) (emb : List EmbRow)
    (lim off : Nat) (r : PgRow) (hfind : findOwned uid reg cid = some r) :
    ∃ (reps : List EmbRow) (fids : List String),
      collList uid cid reg emb lim off =
        .ok (((reps.drop off).take lim).map (docOutOf cid)) ∧
      reps.map fileIdOf = fids.map some ∧
      fids.Nodup ∧
      List.Sorted StrLeRel fids ∧
      (∀ f, f ∈ fids ↔ ∃ e, e ∈ emb ∧ e.collectionId = cid ∧ fileIdOf e = some f) ∧
      (∀ e ∈ reps, e ∈ emb ∧ e.collectionId = cid) ∧
      (∀ e ∈ reps, ∀ x, x ∈ emb → x.collectionId = cid → fileIdOf x = fileIdOf e →
        e.id ≤ x.id) := by
  have hiso : (findOwned uid reg cid).isSome = true := by rw [hfind]; rfl
  have hmemrel := mem_relevantRows uid cid reg emb r hfind
  have hall : ∀ f ∈ sortedFids (relevantRows uid cid reg emb),
      ∃ x ∈ relevantRows uid cid reg emb, fileIdOf x = some f := by
    intro f hf
    unfold sortedFids at hf
    rw [List.mem_insertionSort, List.mem_dedup, List.mem_filterMap] at hf
    exact hf
  have hrepsmem : ∀ e ∈ uniqueFileReps (relevantRows uid cid reg emb),
      ∃ f ∈ sortedFids (relevantRows uid cid reg emb),
        minIdRow (relevantRows uid cid reg emb) f = some e := by
    intro e he
    unfold uniqueFileReps at he
    exact List.mem_filterMap.mp he
  refine ⟨uniqueFileReps (relevantRows uid cid reg emb),
    sortedFids (relevantRows uid cid reg emb), ?_, ?_, ?_, ?_, ?_, ?_, ?_⟩
  · have hd : cmGet uid reg cid =
        some { detailsOfMeta r.uuid r.cmetadata with tableId := some r.name } := by
      simp [cmGet, hfind]
    simp only [collList, hd]
    split <;> rfl
  · exact filterMap_minIdRow_fids (relevantRows uid cid reg emb)
      (sortedFids (relevantRows uid cid reg emb)) hall
  · exact (List.perm_insertionSort StrLeRel _).symm.nodup
      (List.nodup_dedup _)
  · haveI : IsTotal String StrLeRel := ⟨strLe_total⟩
    haveI : IsTrans String StrLeRel := ⟨fun a b c => strLe_trans a b c⟩
    exact List.sorted_insertionSort StrLeRel _
  · intro f
    unfold sortedFids
    rw [List.mem_insertionSort, List.mem_dedup, List.mem_filterMap]
    constructor
    · rintro ⟨e, he, hef⟩
      obtain ⟨h1, h2, -⟩ := (hmemrel e).mp he
      exact ⟨e, h1, h2, hef⟩
    · rintro ⟨e, h1, h2, hef⟩
      exact ⟨e, (hmemrel e).mpr ⟨h1, h2, by simp [hef]⟩, hef⟩
  · intro e he
    obtain ⟨f, -, hmin⟩ := hrepsmem e he
    obtain ⟨hrows, -, -⟩ := minIdRow_spec _ f e hmin
    obtain ⟨h1, h2, -⟩ := (hmemrel e).mp hrows
    exact ⟨h1, h2⟩
  · intro e he x hx hxc hxf
    obtain ⟨f, -, hmin⟩ := hrepsmem e he
    obtain ⟨hrows, hef, hminle⟩ := minIdRow_spec _ f e hmin
    have hxf' : fileIdOf x = some f := by rw [hxf, hef]
    have hxrows : x ∈ relevantRows uid cid reg emb :=
      (hmemrel x).mpr ⟨hx, hxc, by simp [hxf']⟩
    exact hminle x hxrows hxf'

/-- Witness for C6's theorem on a concrete table with two files (chunk
ids 1 and 2 for file "a", id 3 for file "b") and one chunk lacking a
`file_id`. -/
theorem list_unique_files_witness :
    ∃ (reps : List EmbRow) (fids : List String),
      collList "alice" "u1"
        [{ uuid := "u1", name := "t1", cmetadata := [("owner_id", JValue.str "alice")] }]
        [{ id := 2, uuid := "e2", collectionId := "u1", document := "y",
           cmetadata := [("file_id", JValue.str "a")] },
         { id := 1, uuid := "e1", collectionId := "u1", document := "x",
           cmetadata := [("file_id", JValue.str "a")] },
         { id := 3, uuid := "e3", collectionId := "u1", document := "z",
           cmetadata := [("file_id", JValue.str "b")] },
         { id := 4, uuid := "e4", collectionId := "u1", document := "w",
           cmetadata := [] }] 10 0 =
        .ok (((reps.drop 0).take 10).map (docOutOf "u1")) ∧
      reps.map fileIdOf = fids.map some ∧
      fids.Nodup ∧
      List.Sorted StrLeRel fids ∧
      (∀ f, f ∈ fids ↔ ∃ e,
        e ∈ [{ id := 2, uuid := "e2", collectionId := "u1", document := "y",
               cmetadata := [("file_id", JValue.str "a")] },
             { id := 1, uuid := "e1", collectionId := "u1", document := "x",
               cmetadata := [("file_id", JValue.str "a")] },
             { id := 3, uuid := "e3", collectionId := "u1", document := "z",
               cmetadata := [("file_id", JValue.str "b")] },
             { id := 4, uuid := "e4", collectionId := "u1", document := "w",
               cmetadata := [] }] ∧
        e.collectionId = "u1" ∧ fileIdOf e = some f) ∧
      (∀ e ∈ reps,
        e ∈ [{ id := 2, uuid := "e2", collectionId := "u1", document := "y",
               cmetadata := [("file_id", JValue.str "a")] },
             { id := 1, uuid := "e1", collectionId := "u1", document := "x",
               cmetadata := [("file_id", JValue.str "a")] },
             { id := 3, uuid := "e3", collectionId := "u1", document := "z",
               cmetadata := [("file_id", JValue.str "b")] },
             { id := 4, uuid := "e4", collectionId := "u1", document := "w",
               cmetadata := [] }] ∧ e.collectionId = "u1") ∧
      (∀ e ∈ reps, ∀ x,
        x ∈ [{ id := 2, uuid := "e2", collectionId := "u1", document := "y",
               cmetadata := [("file_id", JValue.str "a")] },
             { id := 1, uuid := "e1", collectionId := "u1", document := "x",
               cmetadata := [("file_id", JValue.str "a")] },
             { id := 3, uuid := "e3", collectionId := "u1", document := "z",
               cmetadata := [("file_id", JValue.str "b")] },
             { id := 4, uuid := "e4", collectionId := "u1", document := "w",
               cmetadata := [] }] →
        x.collectionId = "u1" → fileIdOf x = fileIdOf e → e.id ≤ x.id) :=
  list_unique_files "alice" "u1"
    [{ uuid := "u1", name := "t1", cmetadata := [("owner_id", JValue.str "alice")] }]
    [{ id := 2, uuid := "e2", collectionId := "u1", document := "y",
       cmetadata := [("file_id", JValue.str "a")] },
     { id := 1, uuid := "e1", collectionId := "u1", document := "x",
       cmetadata := [("file_id", JValue.str "a")] },
     { id := 3, uuid := "e3", collectionId := "u1", document := "z",
       cmetadata := [("file_id", JValue.str "b")] },
     { id := 4, uuid := "e4", collectionId := "u1", document := "w",
       cmetadata := [] }] 10 0
    { uuid := "u1", name := "t1", cmetadata := [("owner_id", JValue.str "alice")] }
    (by decide)
